import Mathlib

/-!
Verification of the connection-supervision and tool-dispatch core of the
biostratum MCP plugin (src/service.ts), as a shallow embedding in Lean.
The embedding follows the source file line by line: pure helpers become
Lean functions, the mutable service object becomes an explicit
ServiceState value threaded through the operations, and every interaction
with a remote server (protocol handshake, catalog listing, remote tool
call) is supplied by an explicit environment record Env so that the
deterministic control flow of the service itself can be reasoned about.
-/

namespace Biostratum

/-- Connection status of one server, the status field of ServerState. -/
inductive Status
  | connecting
  | connected
  | disconnected
deriving DecidableEq, Repr

/-- One advertised tool of a remote server (name and description; the
input schema is irrelevant to every operation modelled here and is kept
as an opaque string). -/
structure Tool where
  name : String
  description : String := ""
deriving DecidableEq, Repr

/-- One advertised resource of a remote server. -/
structure Resource where
  uri : String := ""
  name : String := ""
deriving DecidableEq, Repr

/-- One advertised resource template of a remote server. -/
structure ResourceTemplate where
  uriTemplate : String := ""
  name : String := ""
deriving DecidableEq, Repr

/-- Tool filtering options of a server config: include (empty means keep
all) and exclude (empty means drop none). An absent filter list in the
source behaves exactly like an empty one (the source guards each filter
with a truthiness check and a length check), so both are modelled as
the empty list. -/
structure McpToolFiltering where
  «include» : List String
  exclude : List String
deriving DecidableEq, Repr

/-- applyToolFiltering from service.ts: step 1 keeps only included names
when the include list is non-empty, step 2 drops every excluded name when
the exclude list is non-empty. -/
def applyToolFiltering (tools : List Tool) (filtering : McpToolFiltering) : List Tool :=
  let step1 :=
    if filtering.«include».length > 0 then
      tools.filter (fun tool => filtering.«include».contains tool.name)
    else
      tools
  if filtering.exclude.length > 0 then
    step1.filter (fun tool => !(filtering.exclude.contains tool.name))
  else
    step1


/-- Default tool-call timeout constant DEFAULT_MCP_TIMEOUT_SECONDS.
Modelled from the spec: the types module that declares the constant is not
among the provided sources; only its name is used by the service and no
claim depends on its numeric value, so an arbitrary positive constant is
used. -/
def DEFAULT_MCP_TIMEOUT_SECONDS : Nat := 60

/-- A server configuration (McpServerConfig from types.ts, not among the
provided sources; its shape is reconstructed from every field the service
reads): a stdio variant with command, argument list, environment overrides
and working directory, or an SSE variant with a URL; both carry an optional
timeout and optional tool filtering. The source stores and compares configs
through JSON.stringify; since stringify is injective on these records,
the stored serialized string is modelled by the structured value itself and
string comparison by structural equality. -/
inductive McpServerConfig
  | stdio (command : String) (args : List String) (env : List (String × String))
      (cwd : String) (timeoutInMillis : Option Nat)
      (toolFiltering : Option McpToolFiltering)
  | sse (url : String) (timeoutInMillis : Option Nat)
      (toolFiltering : Option McpToolFiltering)
deriving DecidableEq, Repr

/-- The toolFiltering field of either config variant. -/
def McpServerConfig.toolFiltering : McpServerConfig → Option McpToolFiltering
  | .stdio _ _ _ _ _ tf => tf
  | .sse _ _ tf => tf

/-- The timeout resolution in callTool: JSON.parse of the stored config
always succeeds (the stored string is always a stringify output), and
config.timeoutInMillis is taken through JavaScript truthiness, so an
absent or zero value falls back to the default constant. -/
def resolveTimeout : McpServerConfig → Nat
  | .stdio _ _ _ _ t _ =>
    match t with
    | some n => if n = 0 then DEFAULT_MCP_TIMEOUT_SECONDS else n
    | none => DEFAULT_MCP_TIMEOUT_SECONDS
  | .sse _ t _ =>
    match t with
    | some n => if n = 0 then DEFAULT_MCP_TIMEOUT_SECONDS else n
    | none => DEFAULT_MCP_TIMEOUT_SECONDS

/-- The server-state record of one connection (McpServer): name, the
stored (serialized) config, status, append-only error log, discovered
catalogs and the disabled flag. The error log is a string; the empty
string models the absent (undefined) error of a freshly created record,
matching the falsy check in appendErrorMessage. -/
structure McpServer where
  name : String
  config : McpServerConfig
  status : Status
  error : String := ""
  tools : List Tool := []
  resources : List Resource := []
  resourceTemplates : List ResourceTemplate := []
  disabled : Bool := false
deriving DecidableEq, Repr

/-- One registry entry (McpConnection): the server state plus the transport
and client handles. The handles are opaque resources; they are modelled by
numeric identifiers so that deferred cleanup can refer to them. -/
structure McpConnection where
  server : McpServer
  transportId : Nat := 0
  clientId : Nat := 0
deriving DecidableEq, Repr

/-- The provider snapshot (McpProvider). Modelled from the spec: the
builder buildMcpProviderData lives in a utils module that is not among the
provided sources; the claims only require that the snapshot field exists
and can be observed to be unchanged, so it is kept as an opaque record. -/
structure McpProvider where
  text : String := ""
deriving DecidableEq, Repr

/-- The mutable state of the McpService object: the connection list, the
provider snapshot, plus two bookkeeping fields that make the implicit
machinery of the source explicit: pending holds the handles whose close
was scheduled by setImmediate (fire-and-forget cleanup) and not yet run,
and nextHandle is a counter that supplies fresh handle identifiers when a
transport and client pair is created. -/
structure ServiceState where
  connections : List McpConnection := []
  mcpProvider : McpProvider := {}
  pending : List Nat := []
  nextHandle : Nat := 0
deriving DecidableEq, Repr

/-- The initial state of a fresh service object. -/
def initialState : ServiceState := {}

/-- The result object of a remote tool call; the source only inspects
whether result.content is present (an absent content field fails the
invalid-result check; an empty array passes it). -/
structure CallToolResult where
  content : Option (List String)
deriving DecidableEq, Repr

/-- The environment of one service: the outcome of every operation that
contacts a remote server, keyed by server name. handshake is the outcome
of client.connect, the three list functions are the catalog fetches, and
remoteCall is the outcome of client.callTool given tool name, arguments
and the resolved timeout. -/
structure Env where
  handshake : String → Except String Unit
  listTools : String → Except String (List Tool)
  listResources : String → Except String (List Resource)
  listResourceTemplates : String → Except String (List ResourceTemplate)
  remoteCall : String → String → List (String × String) → Nat →
    Except String CallToolResult

/-- Character-list prefix test used by the substring check below. -/
def pfxMatch : List Char → List Char → Bool
  | [], _ => true
  | _ :: _, [] => false
  | p :: ps, c :: cs => p = c && pfxMatch ps cs

/-- Character-list substring test used by the substring check below. -/
def subMatch (pat : List Char) : List Char → Bool
  | [] => pat.isEmpty
  | c :: cs => pfxMatch pat (c :: cs) || subMatch pat cs

/-- JavaScript String.prototype.includes: true when pat occurs as a
contiguous substring of s. -/
def strIncludes (s pat : String) : Bool :=
  subMatch pat.data s.data

/-- getServerConnection / this.connections.find: the first connection whose
server name equals the given name. -/
def findConnection (st : ServiceState) (serverName : String) : Option McpConnection :=
  st.connections.find? (fun conn => conn.server.name == serverName)

/-- this.connections.filter(conn.server.name !== name): every same-named
entry removed. -/
def removeConn (conns : List McpConnection) (serverName : String) : List McpConnection :=
  conns.filter (fun conn => conn.server.name != serverName)

/-- In-place mutation of the first element satisfying p, as performed by the
source when it mutates the object returned by Array.prototype.find. -/
def updateFirst (p : McpConnection → Bool) (f : McpConnection → McpConnection) :
    List McpConnection → List McpConnection
  | [] => []
  | c :: rest => if p c then f c :: rest else c :: updateFirst p f rest

/-- appendErrorMessage: the new message is appended to the existing log
after a newline; a falsy (absent or empty) log is replaced outright. -/
def appendErr (log e : String) : String :=
  if log = "" then e else log ++ "\n" ++ e

/-- The error thrown while building the transport, before any registry
registration: buildStdioClientTransport throws when the command is absent
and buildSseClientTransport throws when the URL is absent (the empty
string models the absent field). Returns none when construction succeeds. -/
def transportError (serverName : String) : McpServerConfig → Option String
  | .stdio command _ _ _ _ _ =>
    if command = "" then some ("Missing command for stdio MCP server " ++ serverName)
    else none
  | .sse url _ _ =>
    if url = "" then some ("Missing URL for SSE MCP server " ++ serverName)
    else none

/-- deleteConnection: when a connection with the name exists it is removed
from the list immediately, and the close of its transport and client
handles is deferred to a detached setImmediate action, modelled by
appending the handles to the pending queue; the function itself never
fails (its Lean type has no error case, mirroring the source function
which only resolves). When the name is absent nothing happens. -/
def deleteConnection (st : ServiceState) (serverName : String) : ServiceState :=
  match findConnection st serverName with
  | none => st
  | some conn =>
    { st with
      connections := removeConn st.connections serverName
      pending := st.pending ++ [conn.transportId, conn.clientId] }

/-- One deferred close: the outcome supplied by the oracle is inspected and
discarded, never surfaced (the source attaches an ignoring catch to each
close and additionally swallows synchronous errors). -/
def closeHandle (closeOutcome : Nat → Except String Unit) (h : Nat) : Unit :=
  match closeOutcome h with
  | .ok _ => ()
  | .error _ => ()

/-- Running the deferred cleanup queue: every pending handle is closed with
its outcome ignored and the queue is emptied; the connections list is
untouched. The return type has no error case: no close failure can reach
any caller. -/
def runPendingCleanup (closeOutcome : Nat → Except String Unit) (st : ServiceState) :
    ServiceState × List Unit :=
  ({ st with pending := [] }, st.pending.map (closeHandle closeOutcome))

/-- fetchToolsList: look up the connection (absent name yields the empty
list), ask the remote server for its tools, and on success apply the
configured tool filtering; every failure of the remote listing is caught
inside the function and turned into the empty list, so the function never
raises. -/
def fetchToolsList (env : Env) (st : ServiceState) (serverName : String) : List Tool :=
  match findConnection st serverName with
  | none => []
  | some conn =>
    match env.listTools serverName with
    | .error _ => []
    | .ok tools =>
      match conn.server.config.toolFiltering with
      | some filtering => applyToolFiltering tools filtering
      | none => tools

/-- fetchResourcesList: same tolerant policy, failures yield the empty
list. -/
def fetchResourcesList (env : Env) (st : ServiceState) (serverName : String) :
    List Resource :=
  match findConnection st serverName with
  | none => []
  | some _ =>
    match env.listResources serverName with
    | .error _ => []
    | .ok resources => resources

/-- fetchResourceTemplatesList: same tolerant policy, failures yield the
empty list. -/
def fetchResourceTemplatesList (env : Env) (st : ServiceState) (serverName : String) :
    List ResourceTemplate :=
  match findConnection st serverName with
  | none => []
  | some _ =>
    match env.listResourceTemplates serverName with
    | .error _ => []
    | .ok templates => templates

/-- connectToServer: every same-named entry is filtered out first; then the
transport is built (a configuration error at this point re-raises with
nothing registered, since the catch block finds no connection under the
name); on success a connection with status connecting is pushed, the
handshake runs, and a handshake failure is caught by looking up the pushed
connection (the unique entry under the name, because same-named entries
were filtered at entry), demoting it to disconnected, appending the
message to its error log and re-raising; after a successful handshake the
three catalogs are fetched (each failure tolerated as an empty list) and
the server record is replaced by a connected record with an empty error
log. -/
def connectToServer (env : Env) (st : ServiceState) (serverName : String)
    (config : McpServerConfig) : Except String Unit × ServiceState :=
  let conns1 := removeConn st.connections serverName
  match transportError serverName config with
  | some msg => (.error msg, { st with connections := conns1 })
  | none =>
    let conn0 : McpConnection :=
      { server := { name := serverName, config := config, status := .connecting }
        transportId := st.nextHandle
        clientId := st.nextHandle + 1 }
    let st1 : ServiceState :=
      { st with connections := conns1 ++ [conn0], nextHandle := st.nextHandle + 2 }
    match env.handshake serverName with
    | .error e =>
      let failed : McpConnection :=
        { conn0 with server :=
            { conn0.server with
                status := .disconnected
                error := appendErr conn0.server.error e } }
      (.error e, { st1 with connections := conns1 ++ [failed] })
    | .ok _ =>
      let tools := fetchToolsList env st1 serverName
      let resources := fetchResourcesList env st1 serverName
      let templates := fetchResourceTemplatesList env st1 serverName
      let connected : McpConnection :=
        { conn0 with server :=
            { name := serverName
              config := config
              status := .connected
              error := ""
              tools := tools
              resources := resources
              resourceTemplates := templates
              disabled := false } }
      (.ok (), { st1 with connections := conns1 ++ [connected] })

/-- One reconciliation action, recorded for reasoning about what a
reconciliation pass performed: a teardown of a removed server, a connect of
a new server, or a teardown-then-connect of a reconfigured server. -/
inductive ActionTag
  | delete (serverName : String)
  | connect (serverName : String)
  | reconnect (serverName : String)
deriving DecidableEq, Repr

/-- The removal phase of updateServerConnections: every current name absent
from the desired map is torn down via deleteConnection. -/
def removePhase (st : ServiceState) (newNames : List String) :
    List String → ServiceState × List ActionTag
  | [] => (st, [])
  | n :: rest =>
    if newNames.contains n then removePhase st newNames rest
    else
      let next := removePhase (deleteConnection st n) newNames rest
      (next.1, .delete n :: next.2)

/-- The connect phase of updateServerConnections: a desired entry with no
current connection is connected (its failure caught and logged); an entry
whose serialized config differs from the stored one is torn down and
reconnected (failure likewise caught); an unchanged entry is left alone.
The source launches these tasks concurrently; each task touches only the
entries of its own name, the desired names are distinct (object keys), and
task bodies only mutate the registry between suspension points, so the
sequential execution modelled here produces the same final registry. -/
def connectPhase (env : Env) (st : ServiceState) :
    List (String × McpServerConfig) → ServiceState × List ActionTag
  | [] => (st, [])
  | (n, c) :: rest =>
    match findConnection st n with
    | none =>
      let st1 := (connectToServer env st n c).2
      let next := connectPhase env st1 rest
      (next.1, .connect n :: next.2)
    | some conn =>
      if conn.server.config = c then connectPhase env st rest
      else
        let st1 := (connectToServer env (deleteConnection st n) n c).2
        let next := connectPhase env st1 rest
        (next.1, .reconnect n :: next.2)

/-- updateServerConnections: tear down the registered names absent from the
desired map, then connect new entries and reconnect changed ones. The
desired map (a JavaScript object keyed by name) is modelled as an
association list with distinct keys; the set of current names is the
deduplicated name list of the registry. The returned tag list records
which actions the pass performed. -/
def updateServerConnections (env : Env) (st : ServiceState)
    (serverConfigs : List (String × McpServerConfig)) : ServiceState × List ActionTag :=
  let newNames := serverConfigs.map Prod.fst
  let removed := removePhase st newNames ((st.connections.map (fun c => c.server.name)).dedup)
  let connected := connectPhase env removed.1 serverConfigs
  (connected.1, removed.2 ++ connected.2)

/-- getServers: the server states of the non-disabled connections. -/
def getServers (st : ServiceState) : List McpServer :=
  (st.connections.filter (fun conn => !conn.server.disabled)).map (fun conn => conn.server)

/-- The status demotion performed by the callTool failure handler on the
connection object it found at entry (the first match under the name). -/
def markDisconnected (st : ServiceState) (serverName : String) : ServiceState :=
  let conns :=
    updateFirst (fun conn => conn.server.name == serverName)
      (fun conn => { conn with server := { conn.server with status := .disconnected } })
      st.connections
  { st with connections := conns }

/-- The errors callTool can throw, in the order its checks run: no
connection under the name, connection disabled, connection not connected,
invalid result (missing content container), or the re-raised failure of
the remote call itself. -/
inductive CallToolError
  | notFound (serverName : String)
  | disabled (serverName : String)
  | notConnected (serverName : String) (status : Status)
  | invalidResult
  | remoteError (msg : String)
deriving DecidableEq, Repr

/-- callTool: the three precondition checks run in order before the remote
server is contacted (the third component of the result records whether the
remote call was issued); then the remote call runs under the resolved
timeout; a result without a content container raises the invalid-result
error (whose fixed message contains neither of the substrings below, so no
demotion happens); a remote failure whose message contains the substring
connection or the substring transport demotes the connection status to
disconnected before re-raising, and any other failure is re-raised with
the state untouched. -/
def callTool (env : Env) (st : ServiceState) (serverName toolName : String)
    (args : List (String × String)) :
    Except CallToolError CallToolResult × ServiceState × Bool :=
  match findConnection st serverName with
  | none => (.error (.notFound serverName), st, false)
  | some conn =>
    if conn.server.disabled then
      (.error (.disabled serverName), st, false)
    else if conn.server.status ≠ Status.connected then
      (.error (.notConnected serverName conn.server.status), st, false)
    else
      let timeout := resolveTimeout conn.server.config
      match env.remoteCall serverName toolName args timeout with
      | .ok result =>
        if result.content.isNone then (.error .invalidResult, st, true)
        else (.ok result, st, true)
      | .error msg =>
        if strIncludes msg "connection" || strIncludes msg "transport" then
          (.error (.remoteError msg), markDisconnected st serverName, true)
        else
          (.error (.remoteError msg), st, true)

/-- The mutation restartConnection performs on the found connection before
tearing it down: status connecting, error log cleared. -/
def setConnecting (st : ServiceState) (serverName : String) : ServiceState :=
  let conns :=
    updateFirst (fun conn => conn.server.name == serverName)
      (fun conn => { conn with server :=
        { conn.server with status := .connecting, error := "" } })
      st.connections
  { st with connections := conns }

/-- restartConnection: the stored config of the connection under the name
is read; when no connection exists the guard on the (always truthy when
present) serialized config fails and the whole body is skipped, so the call
resolves without error and without touching any state; otherwise the found
connection is marked connecting with a cleared error log, torn down, and
reconnected from the parsed stored config, any reconnection failure being
surfaced as a fresh error to the caller. -/
def restartConnection (env : Env) (st : ServiceState) (serverName : String) :
    Except String Unit × ServiceState :=
  match findConnection st serverName with
  | none => (.ok (), st)
  | some conn =>
    let st1 := setConnecting st serverName
    let st2 := deleteConnection st1 serverName
    match connectToServer env st2 serverName conn.server.config with
    | (.ok _, st3) => (.ok (), st3)
    | (.error _, st3) =>
      (.error ("Failed to connect to " ++ serverName ++ " MCP server"), st3)

/-- Outcome of the selection retry protocol: a validated selection, or the
caller-supplied fallback message with no tool executed. -/
inductive RetryResult (α : Type)
  | success (value : α)
  | fallback (message : String)
deriving DecidableEq, Repr

/-- Trace of one run of the selection retry protocol: its outcome, the
corrective feedback prompts it built, and how many fresh model responses it
obtained. -/
structure RetryTrace (α : Type) where
  result : RetryResult α
  feedbackPrompts : List String
  modelCalls : Nat
deriving DecidableEq, Repr

/-- Modelled from the spec: withModelRetry (src/utils/mcp.ts) is imported
by every action handler but its source file is not among the provided
sources; this definition follows section 4.6 of the spec word for word.
The raw model response is validated; on success in either state the parsed
selection is returned; on failure in the initial state one corrective
prompt embedding the original response and the validation error is built,
one fresh model response is obtained from it and re-validated; on failure
in the retrying state the caller-supplied fallback message is returned and
no tool is executed. validate is the validator against the current
provider snapshot, mkFeedback builds the corrective prompt from the
original response and the error, and model produces a fresh response from
a prompt. -/
def withModelRetry {α : Type} (raw : String) (validate : String → Except String α)
    (mkFeedback : String → String → String) (model : String → String)
    (fallbackMsg : String) : RetryTrace α :=
  match validate raw with
  | .ok v => { result := .success v, feedbackPrompts := [], modelCalls := 0 }
  | .error e =>
    let prompt := mkFeedback raw e
    let fresh := model prompt
    match validate fresh with
    | .ok v => { result := .success v, feedbackPrompts := [prompt], modelCalls := 1 }
    | .error _ =>
      { result := .fallback fallbackMsg, feedbackPrompts := [prompt], modelCalls := 1 }

/-- The names of the registered connections are pairwise distinct: at most
one connection per server name. -/
def NamesNodup (st : ServiceState) : Prop :=
  (st.connections.map (fun conn => conn.server.name)).Nodup

/-- The registry states reachable from a fresh service by any sequence of
reconciliation passes, direct connects, teardowns and restarts, under
arbitrary environments and configuration maps. -/
inductive Reachable : ServiceState → Prop
  | init : Reachable initialState
  | update (st : ServiceState) (env : Env)
      (cfgs : List (String × McpServerConfig)) :
      Reachable st → Reachable (updateServerConnections env st cfgs).1
  | connect (st : ServiceState) (env : Env) (serverName : String)
      (config : McpServerConfig) :
      Reachable st → Reachable (connectToServer env st serverName config).2
  | teardown (st : ServiceState) (serverName : String) :
      Reachable st → Reachable (deleteConnection st serverName)
  | restart (st : ServiceState) (env : Env) (serverName : String) :
      Reachable st → Reachable (restartConnection env st serverName).2

/-- A desired map entry is registered: the registry resolves its name to a
connection whose stored (serialized) config equals the desired one. -/
def Registered (st : ServiceState) (nc : String × McpServerConfig) : Prop :=
  (findConnection st nc.1).map (fun conn => conn.server.config) = some nc.2

section Fixtures

/-- An environment whose handshake and remote calls succeed but whose tool
listing fails; used to exercise the tolerant catalog-fetch path. -/
def envListFail : Env :=
  { handshake := fun _ => .ok ()
    listTools := fun _ => .error "listTools failed"
    listResources := fun _ => .ok []
    listResourceTemplates := fun _ => .ok []
    remoteCall := fun _ _ _ _ => .ok { content := some [] } }

/-- An environment whose remote tool call fails with a transport-level
message. -/
def envTransportFail : Env :=
  { handshake := fun _ => .ok ()
    listTools := fun _ => .ok []
    listResources := fun _ => .ok []
    listResourceTemplates := fun _ => .ok []
    remoteCall := fun _ _ _ _ => .error "transport closed" }

/-- An environment whose protocol handshake is refused. -/
def envHandshakeFail : Env :=
  { handshake := fun _ => .error "handshake refused"
    listTools := fun _ => .ok []
    listResources := fun _ => .ok []
    listResourceTemplates := fun _ => .ok []
    remoteCall := fun _ _ _ _ => .ok { content := some [] } }

/-- A well-formed stdio config as produced for a biostratum server. -/
def cfgStdio : McpServerConfig :=
  .stdio "uvx" ["gget-mcp"] [] "" none none

/-- A stdio config with an absent command: its transport construction
throws before anything is registered. -/
def cfgNoCommand : McpServerConfig :=
  .stdio "" [] [] "" none none

/-- A connected, enabled connection used as a concrete registry entry. -/
def connFixture : McpConnection :=
  { server :=
      { name := "s1", config := cfgStdio, status := .connected }
    transportId := 0
    clientId := 1 }

/-- A one-connection service state. -/
def stFixture : ServiceState :=
  { connections := [connFixture], nextHandle := 2 }

/-- A connection whose stored config has no command, so that a restart of
it rebuilds the transport from the stored config and fails. -/
def connBad : McpConnection :=
  { server := { name := "b", config := cfgNoCommand, status := .connected }
    transportId := 0
    clientId := 1 }

/-- A one-connection state holding the broken-config connection. -/
def stBad : ServiceState :=
  { connections := [connBad], nextHandle := 2 }

end Fixtures

/-- Claim C1: applyToolFiltering keeps exactly the tools whose names pass the
include filter (all tools when include is empty) and then removes every tool
whose name is excluded; on the concrete list get_gene, gget_search, gget_seq
with include get_gene, gget_search and exclude gget_search the result is
exactly get_gene. -/
theorem C1_applyToolFiltering (tools : List Tool) (f : McpToolFiltering) :
    applyToolFiltering tools f =
      (tools.filter (fun t => f.«include».isEmpty || f.«include».contains t.name)).filter
        (fun t => !(f.exclude.contains t.name))
    ∧ (applyToolFiltering
        [{ name := "get_gene" }, { name := "gget_search" }, { name := "gget_seq" }]
        { «include» := ["get_gene", "gget_search"], exclude := ["gget_search"] }).map
          (fun t => t.name) = ["get_gene"] := by
  constructor
  · unfold applyToolFiltering
    by_cases hi : f.«include».length > 0
    · have hne : f.«include».isEmpty = false := by
        cases h : f.«include» with
        | nil => rw [h] at hi; simp at hi
        | cons a l => simp [List.isEmpty]
      by_cases he : f.exclude.length > 0
      · simp [hi, he, hne]
      · have hex : f.exclude = [] := by
          cases h : f.exclude with
          | nil => rfl
          | cons a l => rw [h] at he; simp at he
        simp [hi, he, hne, hex]
    · have hinc : f.«include» = [] := by
        cases h : f.«include» with
        | nil => rfl
        | cons a l => rw [h] at hi; simp at hi
      by_cases he : f.exclude.length > 0
      · simp [hi, he, hinc]
      · have hex : f.exclude = [] := by
          cases h : f.exclude with
          | nil => rfl
          | cons a l => rw [h] at he; simp at he
        simp [hi, he, hinc, hex]
  · decide

/-- Claim C3: the three precondition checks of callTool run in order before
the remote server is contacted: an absent name raises the no-connection
error with the state unmodified and the remote not contacted; a present but
disabled connection raises the disabled error (regardless of its status);
a present, enabled connection whose status is not connected raises the
not-connected error; in all three cases no state is mutated and the remote
call is never issued. -/
theorem C3_callTool_preconditions (env : Env) (st : ServiceState)
    (serverName toolName : String) (args : List (String × String)) :
    (findConnection st serverName = none →
      callTool env st serverName toolName args =
        (.error (.notFound serverName), st, false))
  ∧ (∀ conn, findConnection st serverName = some conn → conn.server.disabled = true →
      callTool env st serverName toolName args =
        (.error (.disabled serverName), st, false))
  ∧ (∀ conn, findConnection st serverName = some conn → conn.server.disabled = false →
      conn.server.status ≠ Status.connected →
      callTool env st serverName toolName args =
        (.error (.notConnected serverName conn.server.status), st, false)) := by
  refine ⟨?_, ?_, ?_⟩
  · intro h
    simp [callTool, h]
  · intro conn h hdis
    simp [callTool, h, hdis]
  · intro conn h hdis hst
    simp [callTool, h, hdis, hst]

/-- Witness for C3: calling a tool on a name absent from the one-connection
fixture registry raises the no-connection error without mutating state or
contacting the remote. -/
theorem C3_callTool_preconditions_witness :
    callTool envTransportFail stFixture "nope" "toolX" [] =
      (.error (.notFound "nope"), stFixture, false) :=
  (C3_callTool_preconditions envTransportFail stFixture "nope" "toolX" []).1 rfl

/-- Claim C10: restartConnection on a name with no registered connection
returns normally, raising no error and leaving the whole service state
(registry, every connection, provider snapshot) untouched. -/
theorem C10_restart_absent_noop (env : Env) (st : ServiceState) (serverName : String)
    (h : findConnection st serverName = none) :
    restartConnection env st serverName = (Except.ok (), st) := by
  simp [restartConnection, h]

/-- Witness for C10: a restart of an unknown name on the fixture state is a
silent no-op. -/
theorem C10_restart_absent_noop_witness :
    restartConnection envListFail stFixture "ghost0" = (Except.ok (), stFixture) :=
  C10_restart_absent_noop envListFail stFixture "ghost0" rfl

/-- Counterexample to claim C5: on a name for which the registry holds no
stored configuration, restartConnection resolves successfully (and changes
nothing) instead of failing with a surfaced error as the claim states. -/
theorem C5_counterexample_restart_absent :
    restartConnection envListFail initialState "ghost" = (Except.ok (), initialState) :=
  rfl

/-- Claim C5 as amended: restartConnection surfaces an error to its caller
only when a stored configuration exists and the reconnection from it
fails; on a name with no stored configuration the guard on the stored
config fails and the call returns successfully as a silent no-op. -/
theorem C5_restart_error_surfacing (env : Env) (st : ServiceState) (serverName : String) :
    (findConnection st serverName = none →
      (restartConnection env st serverName).1 = Except.ok ())
  ∧ (∀ conn, findConnection st serverName = some conn →
      ∀ e st3,
        connectToServer env (deleteConnection (setConnecting st serverName) serverName)
          serverName conn.server.config = (Except.error e, st3) →
        restartConnection env st serverName =
          (Except.error ("Failed to connect to " ++ serverName ++ " MCP server"), st3)) := by
  constructor
  · intro h
    simp [restartConnection, h]
  · intro conn h e st3 hconn
    simp [restartConnection, h, hconn]

/-- Witness for the amended C5: restarting the connection whose stored
config lacks a command surfaces the failed-to-connect error. -/
theorem C5_restart_error_surfacing_witness :
    (restartConnection envListFail stBad "b").1 =
      Except.error "Failed to connect to b MCP server" := by
  have h := (C5_restart_error_surfacing envListFail stBad "b").2 connBad rfl
    "Missing command for stdio MCP server b"
    (connectToServer envListFail
      (deleteConnection (setConnecting stBad "b") "b") "b" connBad.server.config).2 rfl
  rw [h]
  rfl

/-- Claim C7: under a validator that fails on every input, the selection
retry protocol performs exactly one corrective feedback round-trip: it
builds exactly one feedback prompt, which embeds the original raw response
and the validation error, obtains exactly one fresh model response, and
then returns the caller-supplied fallback message (no validated selection,
hence no tool execution) — never zero round-trips and never two. -/
theorem C7_retry_protocol {α : Type} (raw fallbackMsg : String)
    (validate : String → Except String α) (mkFeedback : String → String → String)
    (model : String → String)
    (hfail : ∀ s, ∃ e, validate s = .error e) :
    (withModelRetry raw validate mkFeedback model fallbackMsg).result =
        RetryResult.fallback fallbackMsg
    ∧ (withModelRetry raw validate mkFeedback model fallbackMsg).modelCalls = 1
    ∧ ∃ e, validate raw = Except.error e ∧
        (withModelRetry raw validate mkFeedback model fallbackMsg).feedbackPrompts =
          [mkFeedback raw e] := by
  obtain ⟨e, he⟩ := hfail raw
  obtain ⟨e2, he2⟩ := hfail (model (mkFeedback raw e))
  refine ⟨?_, ?_, e, he, ?_⟩ <;> simp [withModelRetry, he, he2]

/-- Witness for C7: a concrete always-failing validator yields the fallback
message after exactly one feedback round-trip. -/
theorem C7_retry_protocol_witness :
    (withModelRetry "raw response"
      (fun _ => (Except.error "invalid selection" : Except String Unit))
      (fun r e => r ++ " | " ++ e) (fun _ => "second response") "fallback text").result =
      RetryResult.fallback "fallback text" :=
  (C7_retry_protocol "raw response" "fallback text"
    (fun _ => (Except.error "invalid selection" : Except String Unit))
    (fun r e => r ++ " | " ++ e) (fun _ => "second response")
    (fun _ => ⟨"invalid selection", rfl⟩)).1

/-- Claim C9: for a registered name, deleteConnection removes the
connection from the registry before returning (the registry no longer
resolves the name), defers the release of its transport and client handles
to the detached pending-cleanup queue, and running that deferred cleanup
never surfaces a failure to anyone: whatever outcome each close has, the
cleanup runs to completion (its type has no error case) and leaves the
connection list untouched. deleteConnection itself is a total function
into ServiceState, so it completes without error by type. -/
theorem C9_deleteConnection (st : ServiceState) (serverName : String)
    (conn : McpConnection) (h : findConnection st serverName = some conn) :
    (deleteConnection st serverName).connections = removeConn st.connections serverName
  ∧ findConnection (deleteConnection st serverName) serverName = none
  ∧ (deleteConnection st serverName).pending =
      st.pending ++ [conn.transportId, conn.clientId]
  ∧ ∀ closeOutcome : Nat → Except String Unit,
      (runPendingCleanup closeOutcome (deleteConnection st serverName)).1 =
        { deleteConnection st serverName with pending := [] } := by
  have hconns : (deleteConnection st serverName).connections =
      removeConn st.connections serverName := by
    simp [deleteConnection, h]
  refine ⟨hconns, ?_, ?_, ?_⟩
  · rw [findConnection, hconns, removeConn]
    refine List.find?_eq_none.mpr ?_
    intro x hx
    have hne : x.server.name ≠ serverName := by
      have := (List.mem_filter.mp hx).2
      simpa [bne] using this
    simp [hne]
  · simp [deleteConnection, h]
  · intro closeOutcome
    rfl

/-- Witness for C9: deleting the single fixture connection empties the
registry and queues its two handles for background release. -/
theorem C9_deleteConnection_witness :
    (deleteConnection stFixture "s1").connections = []
  ∧ (deleteConnection stFixture "s1").pending = [0, 1] := by
  have h := C9_deleteConnection stFixture "s1" connFixture rfl
  refine ⟨?_, ?_⟩
  · rw [h.1]
    rfl
  · rw [h.2.2.1]
    rfl

/-- Decomposition of updateFirst at a found element: the list splits into a
prefix on which the predicate is false, the found element, and a suffix;
updateFirst rewrites exactly the found element. -/
theorem updateFirst_decomp (p : McpConnection → Bool) (f : McpConnection → McpConnection) :
    ∀ (l : List McpConnection) (x : McpConnection), l.find? p = some x →
    ∃ l1 l2, l = l1 ++ x :: l2 ∧ (∀ y ∈ l1, p y = false) ∧
      updateFirst p f l = l1 ++ f x :: l2 := by
  intro l
  induction l with
  | nil =>
    intro x h
    simp at h
  | cons c rest ih =>
    intro x h
    by_cases hc : p c
    · rw [List.find?_cons_of_pos _ hc] at h
      obtain rfl : c = x := Option.some.inj h
      exact ⟨[], rest, by simp, by simp, by simp [updateFirst, hc]⟩
    · rw [List.find?_cons_of_neg _ hc] at h
      obtain ⟨l1, l2, hl, hfalse, hupd⟩ := ih x h
      refine ⟨c :: l1, l2, by simp [hl], ?_, ?_⟩
      · intro y hy
        rcases List.mem_cons.mp hy with rfl | hy1
        · exact Bool.not_eq_true _ ▸ by simpa using hc
        · exact hfalse y hy1
      · simp [updateFirst, hc, hupd]

/-- Claim C4: when the remote invocation of callTool on a registered,
enabled, connected server fails, and the failure message contains the
substring connection or the substring transport, the connection status is
demoted to disconnected before the failure is re-raised, so that a
subsequent getServers reports that server as disconnected; a failure whose
message contains neither substring is re-raised with the state untouched. -/
theorem C4_callTool_demotion (env : Env) (st : ServiceState)
    (serverName toolName : String) (args : List (String × String))
    (conn : McpConnection) (msg : String)
    (hnodup : NamesNodup st)
    (hfind : findConnection st serverName = some conn)
    (hen : conn.server.disabled = false)
    (hconn : conn.server.status = Status.connected)
    (hrem : env.remoteCall serverName toolName args (resolveTimeout conn.server.config) =
      .error msg) :
    ((strIncludes msg "connection" || strIncludes msg "transport") = true →
      callTool env st serverName toolName args =
        (.error (.remoteError msg), markDisconnected st serverName, true)
      ∧ (∃ s ∈ getServers (markDisconnected st serverName),
          s.name = serverName ∧ s.status = .disconnected)
      ∧ (∀ s ∈ getServers (markDisconnected st serverName),
          s.name = serverName → s.status = .disconnected))
  ∧ ((strIncludes msg "connection" || strIncludes msg "transport") = false →
      callTool env st serverName toolName args =
        (.error (.remoteError msg), st, true)) := by
  have hname : conn.server.name = serverName := by
    have := List.find?_some hfind
    simpa using this
  constructor
  · intro hsub
    refine ⟨?_, ?_, ?_⟩
    · simp [callTool, hfind, hen, hconn, hrem, hsub]
    · obtain ⟨l1, l2, hl, hfalse, hupd⟩ :=
        updateFirst_decomp (fun c => c.server.name == serverName)
          (fun c => { c with server := { c.server with status := .disconnected } })
          st.connections conn hfind
      refine ⟨({ conn with server :=
          { conn.server with status := Status.disconnected } } : McpConnection).server,
        ?_, ?_, rfl⟩
      · rw [getServers, markDisconnected]
        simp only [hupd]
        exact List.mem_map.mpr ⟨_, List.mem_filter.mpr
          ⟨List.mem_append.mpr (Or.inr (List.mem_cons_self _ _)), by simp [hen]⟩, rfl⟩
      · simpa using hname
    · obtain ⟨l1, l2, hl, hfalse, hupd⟩ :=
        updateFirst_decomp (fun c => c.server.name == serverName)
          (fun c => { c with server := { c.server with status := .disconnected } })
          st.connections conn hfind
      have hnames : serverName ∉ l2.map (fun c => c.server.name) := by
        have h2 : ((l1 ++ conn :: l2).map (fun c => c.server.name)).Nodup := by
          rw [NamesNodup, hl] at hnodup
          exact hnodup
        rw [List.map_append, List.map_cons] at h2
        have h3 := h2.of_append_right
        have h4 := (List.nodup_cons.mp h3).1
        rw [hname] at h4
        exact h4
      intro s hs hsname
      rw [getServers, markDisconnected] at hs
      simp only [hupd] at hs
      obtain ⟨c, hcmem, rfl⟩ := List.mem_map.mp hs
      have hcmem1 := (List.mem_filter.mp hcmem).1
      rcases List.mem_append.mp hcmem1 with h1 | h12
      · have hcf := hfalse c h1
        rw [hsname] at hcf
        simp at hcf
      · rcases List.mem_cons.mp h12 with rfl | h2
        · rfl
        · exact absurd (List.mem_map.mpr ⟨c, h2, hsname⟩) hnames
  · intro hsub
    simp [callTool, hfind, hen, hconn, hrem, hsub]

/-- Witness for C4: the fixture connection demoted after a remote failure
whose message contains the substring transport. -/
theorem C4_callTool_demotion_witness :
    callTool envTransportFail stFixture "s1" "toolX" [] =
      (.error (.remoteError "transport closed"), markDisconnected stFixture "s1", true) :=
  ((C4_callTool_demotion envTransportFail stFixture "s1" "toolX" [] connFixture
    "transport closed" (by unfold NamesNodup; decide) rfl rfl rfl rfl).1 (by decide)).1

/-- Lookup resolves to the single appended same-named connection once
every earlier same-named entry has been filtered away. -/
theorem find_removeConn_append (conns : List McpConnection) (serverName : String)
    (c : McpConnection) (hc : c.server.name = serverName) (tail : List McpConnection) :
    (removeConn conns serverName ++ c :: tail).find?
      (fun x => x.server.name == serverName) = some c := by
  induction conns with
  | nil =>
    simp [removeConn, List.find?, hc]
  | cons a rest ih =>
    rw [removeConn, List.filter_cons]
    by_cases ha : a.server.name = serverName
    · rw [if_neg (by simp [ha])]
      exact ih
    · rw [if_pos (by simp [ha]), List.cons_append,
        List.find?_cons_of_neg _ (by simp [ha])]
      exact ih

/-- A failing remote tool listing is swallowed inside fetchToolsList and
becomes the empty list. -/
theorem fetchToolsList_error (env : Env) (st : ServiceState) (serverName msg : String)
    (h : env.listTools serverName = .error msg) :
    fetchToolsList env st serverName = [] := by
  unfold fetchToolsList
  cases hf : findConnection st serverName <;> simp [h]

/-- Counterexample to claim C6: with a working handshake but a failing tool
listing, connectToServer swallows the catalog-fetch failure inside
fetchToolsList, resolves successfully and registers the connection as
connected with an empty error log — instead of registering it as
disconnected with the failure appended and re-raising, as the claim states
for failures during the catalog fetch. -/
theorem C6_counterexample_catalog_failure :
    (connectToServer envListFail initialState "srv" cfgStdio).1 = Except.ok ()
  ∧ ((connectToServer envListFail initialState "srv" cfgStdio).2.connections.map
      (fun c => (c.server.status, c.server.error))) = [(Status.connected, "")] := by
  exact ⟨rfl, rfl⟩

/-- Claim C6 as amended: a failure of the protocol handshake (which runs
after the connection is registered) leaves the connection registered with
status disconnected, the failure message appended to its (fresh, empty)
error log and the stored config intact, and re-raises the failure to the
caller; a failure of the subsequent catalog fetch, by contrast, is
swallowed: the affected list defaults to empty, the connection is
registered as connected with an empty error log and connectToServer
resolves successfully. -/
theorem C6_connect_failure_handling (env : Env) (st : ServiceState)
    (serverName : String) (cfg : McpServerConfig) (e : String)
    (hb : transportError serverName cfg = none) :
    (env.handshake serverName = .error e →
      (connectToServer env st serverName cfg).1 = .error e
      ∧ (findConnection (connectToServer env st serverName cfg).2 serverName).map
          (fun conn => (conn.server.status, conn.server.error, conn.server.config)) =
          some (.disconnected, appendErr "" e, cfg))
  ∧ (∀ msg, env.handshake serverName = .ok () → env.listTools serverName = .error msg →
      (connectToServer env st serverName cfg).1 = Except.ok ()
      ∧ (findConnection (connectToServer env st serverName cfg).2 serverName).map
          (fun conn => (conn.server.status, conn.server.error, conn.server.tools)) =
          some (.connected, "", [])) := by
  constructor
  · intro hhs
    constructor
    · simp [connectToServer, hb, hhs]
    · rw [findConnection]
      simp only [connectToServer, hb, hhs]
      rw [find_removeConn_append st.connections serverName _ rfl []]
      rfl
  · intro msg hhs hlt
    constructor
    · simp [connectToServer, hb, hhs]
    · rw [findConnection]
      simp only [connectToServer, hb, hhs]
      rw [find_removeConn_append st.connections serverName _ rfl []]
      simp [fetchToolsList_error env _ serverName msg hlt]

/-- Lookup of one name ignores removal and re-insertion under a different
name: removing the entries of one name and appending entries of that same
name leaves the lookup of every other name unchanged. -/
theorem find_removeConn_append_ne (l : List McpConnection) (n n0 : String)
    (hne : n0 ≠ n) :
    ∀ tail : List McpConnection, (∀ x ∈ tail, x.server.name = n) →
    (removeConn l n ++ tail).find? (fun x => x.server.name == n0) =
      l.find? (fun x => x.server.name == n0) := by
  induction l with
  | nil =>
    intro tail htail
    rw [removeConn]
    simp only [List.filter_nil, List.nil_append, List.find?_nil]
    refine List.find?_eq_none.mpr ?_
    intro x hx
    have hxn := htail x hx
    simp [hxn, Ne.symm hne]
  | cons a rest ih =>
    intro tail htail
    rw [removeConn, List.filter_cons]
    by_cases ha : a.server.name = n
    · rw [if_neg (by simp [ha])]
      rw [List.find?_cons_of_neg _ (by simp [ha]; exact Ne.symm hne)]
      exact ih tail htail
    · rw [if_pos (by simp [ha]), List.cons_append]
      by_cases pa : a.server.name = n0
      · rw [List.find?_cons_of_pos _ (by simp [pa]),
          List.find?_cons_of_pos _ (by simp [pa])]
      · rw [List.find?_cons_of_neg _ (by simp [pa]),
          List.find?_cons_of_neg _ (by simp [pa])]
        exact ih tail htail

/-- The connection list produced by connectToServer, seen through the
server names: every same-named entry removed, and (except when the
transport could not be built) one entry of the connected name appended. -/
theorem connect_names_shape (env : Env) (st : ServiceState) (n : String)
    (cfg : McpServerConfig) :
    ((connectToServer env st n cfg).2.connections.map (fun c => c.server.name) =
      (removeConn st.connections n).map (fun c => c.server.name))
  ∨ ((connectToServer env st n cfg).2.connections.map (fun c => c.server.name) =
      (removeConn st.connections n).map (fun c => c.server.name) ++ [n]) := by
  cases htr : transportError n cfg with
  | some msg =>
    left
    simp [connectToServer, htr]
  | none =>
    cases hhs : env.handshake n with
    | error e =>
      right
      simp [connectToServer, htr, hhs]
    | ok u =>
      right
      simp [connectToServer, htr, hhs]

/-- Looking up a different name is unaffected by connectToServer. -/
theorem findConnection_connect_ne (env : Env) (st : ServiceState) (n : String)
    (cfg : McpServerConfig) (n0 : String) (h : n0 ≠ n) :
    findConnection (connectToServer env st n cfg).2 n0 = findConnection st n0 := by
  rw [findConnection, findConnection]
  cases htr : transportError n cfg with
  | some msg =>
    simp only [connectToServer, htr]
    simpa using find_removeConn_append_ne st.connections n n0 h [] (by simp)
  | none =>
    cases hhs : env.handshake n with
    | error e =>
      simp only [connectToServer, htr, hhs]
      exact find_removeConn_append_ne st.connections n n0 h _
        (by intro x hx; rw [List.mem_singleton] at hx; subst hx; rfl)
    | ok u =>
      simp only [connectToServer, htr, hhs]
      exact find_removeConn_append_ne st.connections n n0 h _
        (by intro x hx; rw [List.mem_singleton] at hx; subst hx; rfl)

/-- After a connectToServer whose transport was constructible, the name
resolves to a connection whose stored config is the desired one (this holds
whether the handshake succeeded or failed: in both cases the pushed
connection stays registered with the serialized desired config). -/
theorem findConnection_connect_self (env : Env) (st : ServiceState) (n : String)
    (cfg : McpServerConfig) (hb : transportError n cfg = none) :
    (findConnection (connectToServer env st n cfg).2 n).map
      (fun conn => conn.server.config) = some cfg := by
  rw [findConnection]
  cases hhs : env.handshake n with
  | error e =>
    simp only [connectToServer, hb, hhs]
    rw [find_removeConn_append st.connections n _ rfl []]
    rfl
  | ok u =>
    simp only [connectToServer, hb, hhs]
    rw [find_removeConn_append st.connections n _ rfl []]
    rfl

/-- Looking up a different name is unaffected by deleteConnection. -/
theorem findConnection_delete_ne (st : ServiceState) (n n0 : String) (h : n0 ≠ n) :
    findConnection (deleteConnection st n) n0 = findConnection st n0 := by
  rw [deleteConnection]
  cases hf : findConnection st n with
  | none => rfl
  | some conn =>
    rw [findConnection, findConnection]
    simpa using find_removeConn_append_ne st.connections n n0 h [] (by simp)

/-- Every member of the registry after deleteConnection was already
registered and does not carry the deleted name. -/
theorem mem_delete (st : ServiceState) (n : String) (c : McpConnection)
    (h : c ∈ (deleteConnection st n).connections) :
    c ∈ st.connections ∧ c.server.name ≠ n := by
  rw [deleteConnection] at h
  cases hf : findConnection st n with
  | none =>
    rw [hf] at h
    refine ⟨h, ?_⟩
    have := List.find?_eq_none.mp hf c h
    simpa using this
  | some conn =>
    rw [hf] at h
    have h2 := List.mem_filter.mp h
    refine ⟨h2.1, ?_⟩
    simpa using h2.2

/-- A name in the registry after connectToServer was either already
registered or is the connected name. -/
theorem connect_name_mem (env : Env) (st : ServiceState) (n : String)
    (cfg : McpServerConfig) (x : String)
    (h : x ∈ (connectToServer env st n cfg).2.connections.map (fun c => c.server.name)) :
    x ∈ st.connections.map (fun c => c.server.name) ∨ x = n := by
  have hsub : (removeConn st.connections n).map (fun c => c.server.name) ⊆
      st.connections.map (fun c => c.server.name) :=
    (List.Sublist.map _ (List.filter_sublist _)).subset
  rcases connect_names_shape env st n cfg with hs | hs <;> rw [hs] at h
  · exact Or.inl (hsub h)
  · rcases List.mem_append.mp h with h1 | h2
    · exact Or.inl (hsub h1)
    · exact Or.inr (by simpa using h2)

/-- Witness for the amended C6: a refused handshake is re-raised to the
caller of connectToServer. -/
theorem C6_connect_failure_handling_witness :
    (connectToServer envHandshakeFail initialState "srv" cfgStdio).1 =
      Except.error "handshake refused" :=
  ((C6_connect_failure_handling envHandshakeFail initialState "srv" cfgStdio
    "handshake refused" rfl).1 rfl).1

/-- Removing the entries of one name preserves distinctness of the
registered names. -/
theorem names_removeConn_nodup (l : List McpConnection) (n : String)
    (h : (l.map (fun c => c.server.name)).Nodup) :
    ((removeConn l n).map (fun c => c.server.name)).Nodup :=
  List.Nodup.sublist (List.Sublist.map _ (List.filter_sublist _)) h

/-- After removing the entries of one name, that name is gone. -/
theorem names_removeConn_ne (l : List McpConnection) (n : String) :
    n ∉ (removeConn l n).map (fun c => c.server.name) := by
  intro hmem
  obtain ⟨c, hc, hcname⟩ := List.mem_map.mp hmem
  have h2 := (List.mem_filter.mp hc).2
  rw [hcname] at h2
  simp at h2

/-- deleteConnection preserves the at-most-one-connection-per-name
invariant. -/
theorem namesNodup_delete (st : ServiceState) (n : String) (h : NamesNodup st) :
    NamesNodup (deleteConnection st n) := by
  rw [deleteConnection]
  cases hf : findConnection st n with
  | none => exact h
  | some conn => exact names_removeConn_nodup st.connections n h

/-- connectToServer preserves the at-most-one-connection-per-name
invariant: it removes every same-named entry before inserting the single
new one. -/
theorem namesNodup_connect (env : Env) (st : ServiceState) (n : String)
    (cfg : McpServerConfig) (h : NamesNodup st) :
    NamesNodup (connectToServer env st n cfg).2 := by
  rcases connect_names_shape env st n cfg with hs | hs
  · rw [NamesNodup, hs]
    exact names_removeConn_nodup st.connections n h
  · rw [NamesNodup, hs]
    rw [List.nodup_append]
    refine ⟨names_removeConn_nodup st.connections n h, List.nodup_singleton n, ?_⟩
    intro a ha hb
    rw [List.mem_singleton] at hb
    rw [hb] at ha
    exact names_removeConn_ne st.connections n ha

/-- updateFirst leaves the name of every entry unchanged when the update
function does. -/
theorem updateFirst_map_name (p : McpConnection → Bool) (f : McpConnection → McpConnection)
    (hf : ∀ c, (f c).server.name = c.server.name) :
    ∀ l : List McpConnection, (updateFirst p f l).map (fun c => c.server.name) =
      l.map (fun c => c.server.name) := by
  intro l
  induction l with
  | nil => rfl
  | cons c rest ih =>
    rw [updateFirst]
    by_cases hc : p c
    · rw [if_pos hc]
      simp [hf c]
    · rw [if_neg hc]
      simp [ih]

/-- setConnecting preserves the at-most-one-connection-per-name
invariant. -/
theorem namesNodup_setConnecting (st : ServiceState) (n : String) (h : NamesNodup st) :
    NamesNodup (setConnecting st n) := by
  rw [NamesNodup, setConnecting]
  rw [updateFirst_map_name (fun conn => conn.server.name == n)
    (fun conn => { conn with server :=
      { conn.server with status := .connecting, error := "" } })
    (fun c => rfl)]
  exact h

/-- The removal phase of a reconciliation pass preserves the invariant. -/
theorem namesNodup_removePhase (newNames : List String) :
    ∀ (names : List String) (st : ServiceState), NamesNodup st →
      NamesNodup (removePhase st newNames names).1 := by
  intro names
  induction names with
  | nil =>
    intro st h
    exact h
  | cons a rest ih =>
    intro st h
    rw [removePhase]
    by_cases hc : newNames.contains a
    · rw [if_pos hc]
      exact ih st h
    · rw [if_neg hc]
      exact ih _ (namesNodup_delete st a h)

/-- The connect phase of a reconciliation pass preserves the invariant. -/
theorem namesNodup_connectPhase (env : Env) :
    ∀ (cfgs : List (String × McpServerConfig)) (st : ServiceState), NamesNodup st →
      NamesNodup (connectPhase env st cfgs).1 := by
  intro cfgs
  induction cfgs with
  | nil =>
    intro st h
    exact h
  | cons nc rest ih =>
    obtain ⟨n, c⟩ := nc
    intro st h
    cases hf : findConnection st n with
    | none =>
      simp only [connectPhase, hf]
      exact ih _ (namesNodup_connect env st n c h)
    | some conn =>
      simp only [connectPhase, hf]
      by_cases hcfg : conn.server.config = c
      · rw [if_pos hcfg]
        exact ih st h
      · rw [if_neg hcfg]
        exact ih _ (namesNodup_connect env _ n c (namesNodup_delete st n h))

/-- A full reconciliation pass preserves the invariant. -/
theorem namesNodup_update (env : Env) (st : ServiceState)
    (cfgs : List (String × McpServerConfig)) (h : NamesNodup st) :
    NamesNodup (updateServerConnections env st cfgs).1 :=
  namesNodup_connectPhase env cfgs _
    (namesNodup_removePhase (cfgs.map Prod.fst) _ st h)

/-- restartConnection preserves the invariant. -/
theorem namesNodup_restart (env : Env) (st : ServiceState) (n : String)
    (h : NamesNodup st) : NamesNodup (restartConnection env st n).2 := by
  cases hf : findConnection st n with
  | none => simpa [restartConnection, hf] using h
  | some conn =>
    have h3 := namesNodup_connect env (deleteConnection (setConnecting st n) n) n
      conn.server.config (namesNodup_delete _ n (namesNodup_setConnecting st n h))
    rcases hcs : connectToServer env (deleteConnection (setConnecting st n) n) n
      conn.server.config with ⟨r, st3⟩
    rw [hcs] at h3
    cases r with
    | ok u => simpa [restartConnection, hf, hcs] using h3
    | error e => simpa [restartConnection, hf, hcs] using h3

/-- Claim C8: every registry state reachable by any sequence of
reconciliation passes, direct connects, teardowns and restarts holds at
most one connection per server name; moreover connectToServer always
removes every existing same-named entry before appending its single new
one, and deleteConnection produces exactly the registry with the old
entries of the name removed (and nothing inserted) in every case. -/
theorem C8_registry_name_uniqueness :
    (∀ st, Reachable st → NamesNodup st)
  ∧ (∀ (env : Env) (st : ServiceState) (n : String) (cfg : McpServerConfig),
      ((connectToServer env st n cfg).2.connections.map (fun c => c.server.name) =
        (removeConn st.connections n).map (fun c => c.server.name))
      ∨ ((connectToServer env st n cfg).2.connections.map (fun c => c.server.name) =
        (removeConn st.connections n).map (fun c => c.server.name) ++ [n]))
  ∧ (∀ (st : ServiceState) (n : String),
      (deleteConnection st n).connections = removeConn st.connections n) := by
  refine ⟨?_, ?_, ?_⟩
  · intro st h
    induction h with
    | init => simp [NamesNodup, initialState]
    | update st env cfgs _ ih => exact namesNodup_update env st cfgs ih
    | connect st env n cfg _ ih => exact namesNodup_connect env st n cfg ih
    | teardown st n _ ih => exact namesNodup_delete st n ih
    | restart st env n _ ih => exact namesNodup_restart env st n ih
  · intro env st n cfg
    exact connect_names_shape env st n cfg
  · intro st n
    rw [deleteConnection]
    cases hf : findConnection st n with
    | some conn => rfl
    | none =>
      rw [removeConn]
      refine (List.filter_eq_self.mpr ?_).symm
      intro c hc
      have h2 := List.find?_eq_none.mp hf c hc
      simpa using h2

/-- Witness for C8: the state reached by tearing a name down from the fresh
service satisfies the invariant. -/
theorem C8_registry_name_uniqueness_witness :
    NamesNodup (deleteConnection initialState "x") :=
  C8_registry_name_uniqueness.1 _ (Reachable.teardown initialState "x" Reachable.init)

/-- When every name in the list is already desired, the removal phase does
nothing and records no action. -/
theorem removePhase_id (newNames : List String) :
    ∀ (names : List String) (st : ServiceState),
    (∀ x ∈ names, newNames.contains x) →
    removePhase st newNames names = (st, []) := by
  intro names
  induction names with
  | nil =>
    intro st _
    rfl
  | cons a rest ih =>
    intro st h
    rw [removePhase, if_pos (h a (List.mem_cons_self a rest))]
    exact ih st (fun x hx => h x (List.mem_cons.mpr (Or.inr hx)))

/-- After the removal phase has processed every currently registered name,
every name still registered is a desired one. -/
theorem removePhase_names (newNames : List String) :
    ∀ (names : List String) (st : ServiceState),
    (∀ x ∈ st.connections.map (fun c => c.server.name),
      newNames.contains x ∨ x ∈ names) →
    ∀ x ∈ (removePhase st newNames names).1.connections.map (fun c => c.server.name),
      newNames.contains x := by
  intro names
  induction names with
  | nil =>
    intro st h x hx
    rcases h x hx with h1 | h1
    · exact h1
    · simp at h1
  | cons a rest ih =>
    intro st h
    rw [removePhase]
    by_cases hc : newNames.contains a
    · rw [if_pos hc]
      refine ih st ?_
      intro x hx
      rcases h x hx with h1 | h1
      · exact Or.inl h1
      · rcases List.mem_cons.mp h1 with rfl | h2
        · exact Or.inl hc
        · exact Or.inr h2
    · rw [if_neg hc]
      refine ih (deleteConnection st a) ?_
      intro x hx
      obtain ⟨c, hcmem, rfl⟩ := List.mem_map.mp hx
      obtain ⟨hmem, hne⟩ := mem_delete st a c hcmem
      rcases h _ (List.mem_map.mpr ⟨c, hmem, rfl⟩) with h1 | h1
      · exact Or.inl h1
      · rcases List.mem_cons.mp h1 with h2 | h2
        · exact absurd h2 hne
        · exact Or.inr h2

/-- The connect phase leaves the lookup of every name it does not process
unchanged. -/
theorem connectPhase_preserve (env : Env) :
    ∀ (cfgs : List (String × McpServerConfig)) (st : ServiceState) (n0 : String),
    (∀ nc ∈ cfgs, nc.1 ≠ n0) →
    findConnection (connectPhase env st cfgs).1 n0 = findConnection st n0 := by
  intro cfgs
  induction cfgs with
  | nil =>
    intro st n0 _
    rfl
  | cons nc rest ih =>
    obtain ⟨n, c⟩ := nc
    intro st n0 hne
    have hn : n ≠ n0 := hne (n, c) (List.mem_cons_self _ _)
    have hrest : ∀ nc2 ∈ rest, nc2.1 ≠ n0 :=
      fun nc2 h2 => hne nc2 (List.mem_cons.mpr (Or.inr h2))
    cases hf : findConnection st n with
    | none =>
      simp only [connectPhase, hf]
      rw [ih _ n0 hrest]
      exact findConnection_connect_ne env st n c n0 (Ne.symm hn)
    | some conn =>
      simp only [connectPhase, hf]
      by_cases hcfg : conn.server.config = c
      · rw [if_pos hcfg]
        exact ih st n0 hrest
      · rw [if_neg hcfg]
        rw [ih _ n0 hrest]
        rw [findConnection_connect_ne env _ n c n0 (Ne.symm hn)]
        exact findConnection_delete_ne st n n0 (Ne.symm hn)

/-- After the connect phase runs over a desired map with distinct names
whose transports are all constructible, every desired entry is registered
with its desired config stored (connect and teardown-then-connect both
leave the entry registered even when the handshake fails; an unchanged
entry was already registered). -/
theorem connectPhase_establishes (env : Env) :
    ∀ (cfgs : List (String × McpServerConfig)) (st : ServiceState),
    (cfgs.map Prod.fst).Nodup →
    (∀ nc ∈ cfgs, transportError nc.1 nc.2 = none) →
    ∀ nc ∈ cfgs, Registered (connectPhase env st cfgs).1 nc := by
  intro cfgs
  induction cfgs with
  | nil =>
    intro st _ _ nc h
    simp at h
  | cons hd rest ih =>
    obtain ⟨n, c⟩ := hd
    intro st hnodup hb nc hmem
    rw [List.map_cons] at hnodup
    have hnodup2 : (rest.map Prod.fst).Nodup := (List.nodup_cons.mp hnodup).2
    have hnotin : ∀ nc2 ∈ rest, nc2.1 ≠ n := by
      intro nc2 h2 heq
      exact (List.nodup_cons.mp hnodup).1 (List.mem_map.mpr ⟨nc2, h2, heq⟩)
    have hbrest : ∀ nc2 ∈ rest, transportError nc2.1 nc2.2 = none :=
      fun nc2 h2 => hb nc2 (List.mem_cons.mpr (Or.inr h2))
    rcases List.mem_cons.mp hmem with heq | hmem2
    · rw [heq]
      show (findConnection (connectPhase env st ((n, c) :: rest)).1 n).map
        (fun conn => conn.server.config) = some c
      cases hf : findConnection st n with
      | none =>
        simp only [connectPhase, hf]
        rw [connectPhase_preserve env rest _ n hnotin]
        exact findConnection_connect_self env st n c
          (hb (n, c) (List.mem_cons_self _ _))
      | some conn =>
        simp only [connectPhase, hf]
        by_cases hcfg : conn.server.config = c
        · rw [if_pos hcfg]
          rw [connectPhase_preserve env rest st n hnotin, hf]
          simp [hcfg]
        · rw [if_neg hcfg]
          rw [connectPhase_preserve env rest _ n hnotin]
          exact findConnection_connect_self env _ n c
            (hb (n, c) (List.mem_cons_self _ _))
    · cases hf : findConnection st n with
      | none =>
        simp only [connectPhase, hf]
        exact ih _ hnodup2 hbrest nc hmem2
      | some conn =>
        simp only [connectPhase, hf]
        by_cases hcfg : conn.server.config = c
        · rw [if_pos hcfg]
          exact ih st hnodup2 hbrest nc hmem2
        · rw [if_neg hcfg]
          exact ih _ hnodup2 hbrest nc hmem2

/-- When every desired entry is already registered with its desired config,
the connect phase does nothing and records no action. -/
theorem connectPhase_idempotent (env : Env) :
    ∀ (cfgs : List (String × McpServerConfig)) (st : ServiceState),
    (∀ nc ∈ cfgs, Registered st nc) →
    connectPhase env st cfgs = (st, []) := by
  intro cfgs
  induction cfgs with
  | nil =>
    intro st _
    rfl
  | cons nc rest ih =>
    obtain ⟨n, c⟩ := nc
    intro st hreg
    have hr := hreg (n, c) (List.mem_cons_self _ _)
    rw [Registered] at hr
    cases hf : findConnection st n with
    | none =>
      rw [hf] at hr
      simp at hr
    | some conn =>
      rw [hf] at hr
      have hcfg : conn.server.config = c := by simpa using hr
      simp only [connectPhase, hf]
      rw [if_pos hcfg]
      exact ih st (fun nc2 h2 => hreg nc2 (List.mem_cons.mpr (Or.inr h2)))

/-- After the connect phase over a desired map, every registered name is a
desired name (the phase only inserts desired names and never resurrects a
removed one). -/
theorem connectPhase_names (env : Env) (allNames : List String) :
    ∀ (cfgs : List (String × McpServerConfig)) (st : ServiceState),
    (∀ nc ∈ cfgs, allNames.contains nc.1) →
    (∀ x ∈ st.connections.map (fun c => c.server.name), allNames.contains x) →
    ∀ x ∈ (connectPhase env st cfgs).1.connections.map (fun c => c.server.name),
      allNames.contains x := by
  intro cfgs
  induction cfgs with
  | nil =>
    intro st _ hst
    exact hst
  | cons nc rest ih =>
    obtain ⟨n, c⟩ := nc
    intro st hcfg hst
    have hcfgrest : ∀ nc2 ∈ rest, allNames.contains nc2.1 :=
      fun nc2 h2 => hcfg nc2 (List.mem_cons.mpr (Or.inr h2))
    cases hf : findConnection st n with
    | none =>
      simp only [connectPhase, hf]
      refine ih _ hcfgrest ?_
      intro x hx
      rcases connect_name_mem env st n c x hx with h1 | heq
      · exact hst x h1
      · rw [heq]
        exact hcfg (n, c) (List.mem_cons_self _ _)
    | some conn =>
      simp only [connectPhase, hf]
      by_cases hcfgeq : conn.server.config = c
      · rw [if_pos hcfgeq]
        exact ih st hcfgrest hst
      · rw [if_neg hcfgeq]
        refine ih _ hcfgrest ?_
        intro x hx
        rcases connect_name_mem env (deleteConnection st n) n c x hx with h1 | heq
        · obtain ⟨c2, hc2, rfl⟩ := List.mem_map.mp h1
          exact hst _ (List.mem_map.mpr ⟨c2, (mem_delete st n c2 hc2).1, rfl⟩)
        · rw [heq]
          exact hcfg (n, c) (List.mem_cons_self _ _)

/-- Counterexample to claim C2: a desired map whose single entry has no
command (so its transport construction throws before anything is
registered) is not reconciled idempotently — the failed connect leaves
nothing registered, so the second run with the same map schedules the very
same connect action again instead of performing no action. -/
theorem C2_counterexample_missing_command :
    (updateServerConnections envListFail
      (updateServerConnections envListFail initialState [("a", cfgNoCommand)]).1
      [("a", cfgNoCommand)]).2 = [ActionTag.connect "a"] := by
  decide

/-- Claim C2 as amended: reconciliation is idempotent for every desired map
with distinct names all of whose entries have a constructible transport
(stdio command present, SSE URL present): after one updateServerConnections
pass every desired entry is registered with exactly its serialized config
stored (also when its handshake failed, since a failed connect past
transport construction stays registered with that config), every
registered name is a desired name, and a second pass with the same map
performs no connect, teardown-then-connect or delete action. Entries whose
transport construction throws are never registered, so they are retried by
the next pass. -/
theorem C2_reconcile_idempotent (env : Env) (st : ServiceState)
    (cfgs : List (String × McpServerConfig))
    (hnodup : (cfgs.map Prod.fst).Nodup)
    (hbuild : ∀ nc ∈ cfgs, transportError nc.1 nc.2 = none) :
    (∀ nc ∈ cfgs, Registered (updateServerConnections env st cfgs).1 nc)
  ∧ (∀ x ∈ (updateServerConnections env st cfgs).1.connections.map
      (fun c => c.server.name), (cfgs.map Prod.fst).contains x)
  ∧ (updateServerConnections env
      (updateServerConnections env st cfgs).1 cfgs).2 = [] := by
  have hreg : ∀ nc ∈ cfgs, Registered (updateServerConnections env st cfgs).1 nc := by
    intro nc hmem
    exact connectPhase_establishes env cfgs _ hnodup hbuild nc hmem
  have hunfold : (updateServerConnections env st cfgs).1 =
      (connectPhase env (removePhase st (cfgs.map Prod.fst)
        ((st.connections.map (fun c => c.server.name)).dedup)).1 cfgs).1 := rfl
  have hnames : ∀ x ∈ (updateServerConnections env st cfgs).1.connections.map
      (fun c => c.server.name), (cfgs.map Prod.fst).contains x := by
    intro x hx
    rw [hunfold] at hx
    refine connectPhase_names env (cfgs.map Prod.fst) cfgs
      (removePhase st (cfgs.map Prod.fst)
        ((st.connections.map (fun c => c.server.name)).dedup)).1 ?_ ?_ x hx
    · intro nc h2
      exact List.elem_iff.mpr (List.mem_map.mpr ⟨nc, h2, rfl⟩)
    · refine removePhase_names (cfgs.map Prod.fst) _ st ?_
      intro y hy
      exact Or.inr (List.mem_dedup.mpr hy)
  refine ⟨hreg, hnames, ?_⟩
  have hrm := removePhase_id (cfgs.map Prod.fst)
    (((updateServerConnections env st cfgs).1.connections.map
      (fun c => c.server.name)).dedup) (updateServerConnections env st cfgs).1
    (fun x hx => hnames x (List.mem_dedup.mp hx))
  have hcp := connectPhase_idempotent env cfgs
    (updateServerConnections env st cfgs).1 hreg
  show (removePhase (updateServerConnections env st cfgs).1 (cfgs.map Prod.fst)
      (((updateServerConnections env st cfgs).1.connections.map
        (fun c => c.server.name)).dedup)).2
    ++ (connectPhase env
        (removePhase (updateServerConnections env st cfgs).1 (cfgs.map Prod.fst)
          (((updateServerConnections env st cfgs).1.connections.map
            (fun c => c.server.name)).dedup)).1 cfgs).2 = []
  rw [hrm]
  simp [hcp]

/-- Witness for the amended C2: one well-formed entry reconciled twice from
the fresh service; the second pass performs no action. -/
theorem C2_reconcile_idempotent_witness :
    (updateServerConnections envListFail
      (updateServerConnections envListFail initialState [("a", cfgStdio)]).1
      [("a", cfgStdio)]).2 = [] :=
  (C2_reconcile_idempotent envListFail initialState [("a", cfgStdio)]
    (by decide)
    (by
      intro nc h
      rw [List.mem_singleton] at h
      subst h
      decide)).2.2

end Biostratum
